import Mathlib

/-!
Shallow embedding of `src/core/concurrent.rs` (farcaller/rust-core).

The mutex serializes every operation on a queue or a map, so each public
operation is modelled as an atomic transformation of the protected state;
a condition-variable wait loop is modelled as an enabledness condition on
the transition that completes the blocking call.  Collaborator modules of
the repository that are not under `src/` (core/deque.rs,
core/priority_queue.rs, core/hash.rs, core/thread.rs) are modelled from
the spec, as noted on each definition.
-/

namespace RustCore

/-- Modelled from the spec: core/deque.rs is not under src/.  Spec 4.1/4.4:
the sequence-backed structure is FIFO — `push_back` appends at the back and
`pop_front` removes and returns the earliest-inserted item.  A deque is its
list of elements, front first. -/
abbrev Deque (A : Type) : Type := List A

def Deque.new (A : Type) : Deque A := []

def Deque.push_back {A : Type} (q : Deque A) (x : A) : Deque A := q ++ [x]

def Deque.pop_front {A : Type} : Deque A → Option A × Deque A
  | [] => (none, [])
  | x :: xs => (some x, xs)

/-- Modelled from the spec: core/priority_queue.rs is not under src/.
Spec 4.1: heap-backed, max-order — `remove` returns an item that is ≥ every
other present item under a required total order; tie-breaking is
unspecified.  The queue is modelled by the list of present elements. -/
abbrev PriorityQueue (A : Type) : Type := List A

def PriorityQueue.new (A : Type) : PriorityQueue A := []

def PriorityQueue.push {A : Type} (q : PriorityQueue A) (x : A) : PriorityQueue A := x :: q

/-- Remove a maximal element: the returned element is ≥ every element of the
list, and the second component is the rest. -/
def pqPopList {A : Type} [LinearOrder A] : List A → Option A × List A
  | [] => (none, [])
  | x :: xs =>
    match pqPopList xs with
    | (none, _) => (some x, [])
    | (some m, rest) => if m ≤ x then (some x, xs) else (some m, x :: rest)

def PriorityQueue.pop {A : Type} [LinearOrder A] (q : PriorityQueue A) :
    Option A × PriorityQueue A :=
  pqPopList q

/-- The `GenericQueue` trait of src/core/concurrent.rs (lines 28-31): a
uniform insert/remove interface over a backing structure, together with the
`Container` super-trait's `len`/`is_empty`.  `generic_pop` is state-passing:
it returns the removed item (if any) and the remaining structure. -/
structure GenericQueue (Q A : Type) where
  generic_push : Q → A → Q
  generic_pop : Q → Option A × Q
  is_empty : Q → Bool
  len : Q → Nat

/-- `impl GenericQueue for Deque` (src lines 33-36). -/
def dequeGQ (A : Type) : GenericQueue (Deque A) A where
  generic_push := Deque.push_back
  generic_pop := Deque.pop_front
  is_empty := fun q => q.isEmpty
  len := fun q => q.length

/-- `impl GenericQueue for PriorityQueue` (src lines 38-41). -/
def pqGQ (A : Type) [LinearOrder A] : GenericQueue (PriorityQueue A) A where
  generic_push := PriorityQueue.push
  generic_pop := PriorityQueue.pop
  is_empty := fun q => q.isEmpty
  len := fun q => q.length

/-! Lemmas about the priority-queue removal. -/

theorem pqPopList_fst_none {A : Type} [LinearOrder A] {q : List A} {r : List A}
    (h : pqPopList q = (none, r)) : q = [] := by
  cases q with
  | nil => rfl
  | cons x xs =>
    exfalso
    simp only [pqPopList] at h
    rcases h2 : pqPopList xs with ⟨o, rest⟩
    cases o with
    | none => rw [h2] at h; simp at h
    | some m =>
      rw [h2] at h
      by_cases hle : m ≤ x
      · simp [hle] at h
      · simp [hle] at h

theorem pqPopList_fst_isSome {A : Type} [LinearOrder A] {q : List A}
    (h : q ≠ []) : (pqPopList q).1.isSome = true := by
  rcases h2 : pqPopList q with ⟨o, rest⟩
  cases o with
  | none => exact absurd (pqPopList_fst_none h2) h
  | some m => simp

theorem pqPopList_max {A : Type} [LinearOrder A] :
    ∀ {q : List A} {m : A} {rest : List A},
      pqPopList q = (some m, rest) → ∀ y ∈ q, y ≤ m := by
  intro q
  induction q with
  | nil => intro m rest h; simp [pqPopList] at h
  | cons x xs ih =>
    intro m rest h y hy
    simp only [pqPopList] at h
    rcases h2 : pqPopList xs with ⟨o, rest2⟩
    cases o with
    | none =>
      rw [h2] at h
      have hxs : xs = [] := pqPopList_fst_none h2
      subst hxs
      simp at h
      rcases List.mem_cons.mp hy with rfl | hy
      · exact le_of_eq h.1
      · simp at hy
    | some m2 =>
      rw [h2] at h
      by_cases hle : m2 ≤ x
      · simp [hle] at h
        rcases List.mem_cons.mp hy with rfl | hy
        · exact le_of_eq h.1
        · exact le_trans (ih h2 y hy) (h.1 ▸ hle)
      · simp [hle] at h
        rcases List.mem_cons.mp hy with rfl | hy
        · exact le_of_lt (h.1 ▸ lt_of_not_le hle)
        · exact h.1 ▸ ih h2 y hy

theorem pqPopList_perm {A : Type} [LinearOrder A] :
    ∀ {q : List A} {m : A} {rest : List A},
      pqPopList q = (some m, rest) → List.Perm q (m :: rest) := by
  intro q
  induction q with
  | nil => intro m rest h; simp [pqPopList] at h
  | cons x xs ih =>
    intro m rest h
    simp only [pqPopList] at h
    rcases h2 : pqPopList xs with ⟨o, rest2⟩
    cases o with
    | none =>
      rw [h2] at h
      have hxs : xs = [] := pqPopList_fst_none h2
      subst hxs
      simp at h
      rw [h.1, h.2]
    | some m2 =>
      rw [h2] at h
      by_cases hle : m2 ≤ x
      · simp [hle] at h
        rw [← h.1, ← h.2]
      · simp [hle] at h
        have hperm : List.Perm xs (m2 :: rest2) := ih h2
        rw [← h.1, ← h.2]
        exact (List.Perm.cons x hperm).trans (List.Perm.swap m2 x rest2)

theorem pqPopList_len {A : Type} [LinearOrder A] (q : List A) :
    ((pqPopList q).2).length ≤ q.length := by
  rcases h2 : pqPopList q with ⟨o, rest⟩
  cases o with
  | none =>
    have hq : q = [] := pqPopList_fst_none h2
    subst hq
    simp [pqPopList] at h2
    simp [← h2]
  | some m =>
    have hperm := pqPopList_perm h2
    have := hperm.length_eq
    simp at this
    simp [this]

/-! The bounded blocking engine `BoundedQueuePtr` (src lines 148-196).
One mutex guards the whole state, so every completed operation is an atomic
transformation of the backing structure; the wait loops mean a push
completes only from a state where `len == maximum` is false, and a pop only
from a state where `is_empty` is false. -/

/-- One completed operation of `BoundedQueuePtr::push` (src lines 184-195)
or `BoundedQueuePtr::pop` (src lines 170-182) on the protected backing
structure.  The push wait loop is `while deque.len() == maximum`, so the
insertion happens in a state with `len ≠ maximum`; the pop wait loop is
`while deque.is_empty()`, so the removal happens in a non-empty state. -/
inductive BoundedStep {Q A : Type} (g : GenericQueue Q A) (maximum : Nat) : Q → Q → Prop where
  | push (q : Q) (x : A) (hfull : g.len q ≠ maximum) :
      BoundedStep g maximum q (g.generic_push q x)
  | pop (q : Q) (x : A) (hne : g.is_empty q = false)
      (hpop : (g.generic_pop q).1 = some x) :
      BoundedStep g maximum q (g.generic_pop q).2

/-- States reachable from `q1` by completed push/pop operations. -/
inductive BoundedReach {Q A : Type} (g : GenericQueue Q A) (maximum : Nat) : Q → Q → Prop where
  | refl (q : Q) : BoundedReach g maximum q q
  | step (q1 q2 q3 : Q) : BoundedReach g maximum q1 q2 → BoundedStep g maximum q2 q3 →
      BoundedReach g maximum q1 q3

theorem boundedStep_len_le {Q A : Type} (g : GenericQueue Q A) (C : Nat)
    (hpush : ∀ q x, g.len (g.generic_push q x) = g.len q + 1)
    (hpop : ∀ q, g.len (g.generic_pop q).2 ≤ g.len q)
    {q q2 : Q} (hs : BoundedStep g C q q2) (hle : g.len q ≤ C) : g.len q2 ≤ C := by
  cases hs with
  | push x hfull =>
    rw [hpush]
    exact Nat.succ_le_of_lt (lt_of_le_of_ne hle hfull)
  | pop x hne hpop2 =>
    exact le_trans (hpop q) hle

theorem boundedReach_len_le {Q A : Type} (g : GenericQueue Q A) (C : Nat)
    (hpush : ∀ q x, g.len (g.generic_push q x) = g.len q + 1)
    (hpop : ∀ q, g.len (g.generic_pop q).2 ≤ g.len q)
    {q0 q : Q} (hr : BoundedReach g C q0 q) (h0 : g.len q0 ≤ C) : g.len q ≤ C := by
  induction hr with
  | refl => exact h0
  | step q2 q3 hr2 hs ih => exact boundedStep_len_le g C hpush hpop hs ih

theorem dequeGQ_len_push (A : Type) (q : Deque A) (x : A) :
    (dequeGQ A).len ((dequeGQ A).generic_push q x) = (dequeGQ A).len q + 1 := by
  simp [dequeGQ, Deque.push_back]

theorem dequeGQ_len_pop (A : Type) (q : Deque A) :
    (dequeGQ A).len ((dequeGQ A).generic_pop q).2 ≤ (dequeGQ A).len q := by
  cases q with
  | nil => simp [dequeGQ, Deque.pop_front]
  | cons x xs => simp [dequeGQ, Deque.pop_front]

theorem pqGQ_len_push (A : Type) [LinearOrder A] (q : PriorityQueue A) (x : A) :
    (pqGQ A).len ((pqGQ A).generic_push q x) = (pqGQ A).len q + 1 := by
  simp [pqGQ, PriorityQueue.push]

theorem pqGQ_len_pop (A : Type) [LinearOrder A] (q : PriorityQueue A) :
    (pqGQ A).len ((pqGQ A).generic_pop q).2 ≤ (pqGQ A).len q := by
  simpa [pqGQ, PriorityQueue.pop] using pqPopList_len q

/-! The unbounded engine's push path (src lines 73-81), at the granularity
of its primitive effects on the protected state, to reason about which exit
paths release the mutex. -/

/-- The protected state of `QueueBox` (src lines 43-48), together with the
mutex it contains.  Modelled from the spec: core/thread.rs is not under
src/; a `Mutex` is modelled by whether it is currently held. -/
structure QueueBox (Q : Type) where
  queue : Q
  locked : Bool

/-- Embedding of `QueuePtr::push` (src lines 73-81) as its sequence of
primitive effects: `mutex.lock()`, `queue.generic_push(item)`,
`mutex.unlock()`, `not_empty.signal()`.  `insert_ok` is true when the
insertion into the backing structure succeeds; when it fails partway (for
example on an allocation failure inside `generic_push`), the call unwinds
at that point and the remaining statements of the body — including
`mutex.unlock()` — never run.  The returned Bool is true when the call
completed normally. -/
def QueuePtr.push {Q A : Type} (g : GenericQueue Q A) (b : QueueBox Q) (x : A)
    (insert_ok : Bool) : QueueBox Q × Bool :=
  let b1 : QueueBox Q := { b with locked := true }
  if insert_ok then
    let b2 : QueueBox Q := { b1 with queue := g.generic_push b1.queue x }
    let b3 : QueueBox Q := { b2 with locked := false }
    (b3, true)
  else
    (b1, false)

/-! Serialized operation traces of the unbounded FIFO `Queue` (src lines
90-110).  The single mutex serializes all pushes and pops, so a concurrent
execution is a sequence of completed operations; a pop completes only when
the deque is non-empty (otherwise the popper waits on `not_empty`). -/

/-- One queue operation of a serialized trace. -/
inductive QOp (A : Type) where
  | push : A → QOp A
  | pop : QOp A

/-- The values pushed by a trace, in order. -/
def pushesOf {A : Type} : List (QOp A) → List A
  | [] => []
  | QOp.push x :: r => x :: pushesOf r
  | QOp.pop :: r => pushesOf r

/-- Run a serialized trace against `Queue`'s deque: `push` appends at the
back (src line 34), `pop` removes at the front (src line 35).  The result is
`none` when some pop finds the queue empty — in the real program that pop
has not completed yet (it is blocked), so such a sequence is not a trace of
completed operations.  Otherwise the result is the list of popped values in
completion order together with the final queue. -/
def runQueue {A : Type} : Deque A → List (QOp A) → Option (List A × Deque A)
  | q, [] => some ([], q)
  | q, QOp.push x :: r => runQueue (Deque.push_back q x) r
  | q, QOp.pop :: r =>
    match q with
    | [] => none
    | x :: xs => (runQueue xs r).map (fun p => (x :: p.1, p.2))

theorem runQueue_outputs_append {A : Type} :
    ∀ (ops : List (QOp A)) (q : Deque A) (outs : List A) (fq : Deque A),
      runQueue q ops = some (outs, fq) → outs ++ fq = q ++ pushesOf ops := by
  intro ops
  induction ops with
  | nil =>
    intro q outs fq h
    simp [runQueue] at h
    simp [pushesOf, h.1, h.2]
  | cons op r ih =>
    intro q outs fq h
    cases op with
    | push x =>
      simp only [runQueue] at h
      have := ih (Deque.push_back q x) outs fq h
      simpa [Deque.push_back, pushesOf] using this
    | pop =>
      simp only [runQueue] at h
      cases q with
      | nil => simp at h
      | cons y ys =>
        have h3 : (runQueue ys r).map (fun p => (y :: p.1, p.2)) = some (outs, fq) := h
        rcases h2 : runQueue ys r with _ | ⟨outs2, fq2⟩
        · rw [h2] at h3; simp at h3
        · rw [h2] at h3
          simp at h3
          have := ih ys outs2 fq2 h2
          rw [← h3.1, ← h3.2]
          simp [pushesOf, this]

/-! The concurrent hash maps (src lines 262-398). -/

/-- Modelled from the spec: core/hash.rs `HashMap` is not under src/.
Spec 4.5: a keyed hash map whose two 64-bit seeds are fixed at
construction; `swap` is upsert returning the previous value, `pop` removes
the entry returning its value, `find` looks the key up.  The table is
modelled by its lookup function; the capacity argument is only an initial
size hint and does not affect the observable contents. -/
structure HashMap (K V : Type) where
  k0 : Nat
  k1 : Nat
  tbl : K → Option V

def HashMap.with_capacity_and_keys (K V : Type) (k0 k1 capacity : Nat) : HashMap K V :=
  { k0 := k0, k1 := k1, tbl := fun _ => none }

def HashMap.swap {K V : Type} [DecidableEq K] (m : HashMap K V) (k : K) (v : V) :
    Option V × HashMap K V :=
  (m.tbl k, { m with tbl := fun k2 => if k2 = k then some v else m.tbl k2 })

def HashMap.pop {K V : Type} [DecidableEq K] (m : HashMap K V) (k : K) :
    Option V × HashMap K V :=
  (m.tbl k, { m with tbl := fun k2 => if k2 = k then none else m.tbl k2 })

/-- `Clone::clone` for a value type: `find` returns `v.clone()`
(src line 295), a copy of the stored value. -/
def clone {V : Type} (v : V) : V := v

def HashMap.find {K V : Type} (m : HashMap K V) (k : K) : Option V :=
  (m.tbl k).map clone

/-- `LockedHashMap` (src lines 262-298): one mutex guarding one `HashMap`.
Each operation holds a lock guard for the whole call (src lines 278, 285,
294), so it acts atomically on the map and the guard releases the mutex on
every exit path. -/
structure LockedHashMap (K V : Type) where
  map : HashMap K V

def LockedHashMap.with_capacity_and_keys (K V : Type) (k0 k1 capacity : Nat) :
    LockedHashMap K V :=
  { map := HashMap.with_capacity_and_keys K V k0 k1 capacity }

def LockedHashMap.swap {K V : Type} [DecidableEq K] (m : LockedHashMap K V) (k : K) (v : V) :
    Option V × LockedHashMap K V :=
  let r := m.map.swap k v
  (r.1, { map := r.2 })

def LockedHashMap.pop {K V : Type} [DecidableEq K] (m : LockedHashMap K V) (k : K) :
    Option V × LockedHashMap K V :=
  let r := m.map.pop k
  (r.1, { map := r.2 })

def LockedHashMap.find {K V : Type} (m : LockedHashMap K V) (k : K) : Option V :=
  m.map.find k

/-- `ConcurrentHashMap` (src lines 300-334): a clonable handle to one
`LockedHashMap` behind an `Arc`; each operation delegates to the locked
map.  Handle aliasing is modelled by explicit state passing of the shared
`LockedHashMap`. -/
structure ConcurrentHashMap (K V : Type) where
  ptr : LockedHashMap K V

def ConcurrentHashMap.with_capacity_and_keys (K V : Type) (k0 k1 capacity : Nat) :
    ConcurrentHashMap K V :=
  { ptr := LockedHashMap.with_capacity_and_keys K V k0 k1 capacity }

def ConcurrentHashMap.swap {K V : Type} [DecidableEq K] (m : ConcurrentHashMap K V)
    (k : K) (v : V) : Option V × ConcurrentHashMap K V :=
  let r := m.ptr.swap k v
  (r.1, { ptr := r.2 })

def ConcurrentHashMap.pop {K V : Type} [DecidableEq K] (m : ConcurrentHashMap K V)
    (k : K) : Option V × ConcurrentHashMap K V :=
  let r := m.ptr.pop k
  (r.1, { ptr := r.2 })

def ConcurrentHashMap.find {K V : Type} (m : ConcurrentHashMap K V) (k : K) : Option V :=
  m.ptr.find k

/-! A store-level refinement of `LockedHashMap::find` (src lines 291-298),
to state that `find` returns a copy of the stored value rather than a
reference into the map's storage.  Values live in addressed cells of a
store; the map binds keys to addresses. -/

/-- A store of values at addresses. -/
structure Store (V : Type) where
  cells : List V

def Store.alloc {V : Type} (st : Store V) (v : V) : Nat × Store V :=
  (st.cells.length, { cells := st.cells ++ [v] })

def Store.read {V : Type} (st : Store V) (a : Nat) : Option V :=
  st.cells[a]?

def Store.write {V : Type} (st : Store V) (a : Nat) (v : V) : Store V :=
  { cells := st.cells.set a v }

/-- The map's own storage: keys bound to addresses of cells owned by the
map. -/
structure HeapHashMap (K V : Type) where
  addr : K → Option Nat

/-- `find` at store level: look up the key's cell and return a fresh cell
holding `v.clone()` (src line 295) — the caller gets an address outside the
map's storage. -/
def HeapHashMap.find_copy {K V : Type} (m : HeapHashMap K V) (st : Store V) (k : K) :
    Option Nat × Store V :=
  match m.addr k with
  | none => (none, st)
  | some a =>
    match st.read a with
    | none => (none, st)
    | some v =>
      let r := st.alloc (clone v)
      (some r.1, r.2)

/-- `swap` at store level: overwrite the value in the key's own cell, or
bind the key to a fresh cell when absent. -/
def HeapHashMap.swap_store {K V : Type} [DecidableEq K] (m : HeapHashMap K V) (st : Store V)
    (k : K) (v : V) : HeapHashMap K V × Store V :=
  match m.addr k with
  | some a => (m, st.write a v)
  | none =>
    let r := st.alloc v
    ({ addr := fun k2 => if k2 = k then some r.1 else m.addr k2 }, r.2)

/-- `pop` at store level: unbind the key; the removed value is moved out to
the caller, and no other cell of the store is written. -/
def HeapHashMap.pop_store {K V : Type} [DecidableEq K] (m : HeapHashMap K V) (st : Store V)
    (k : K) : HeapHashMap K V × Store V :=
  ({ addr := fun k2 => if k2 = k then none else m.addr k2 }, st)

/-! The sharded map (src lines 336-398). -/

/-- `ShardMapBox` (src lines 336-341): an immutable array of single-lock
maps plus the two hash seeds shared by all shards. -/
structure ShardMapBox (K V : Type) where
  maps : List (LockedHashMap K V)
  k0 : Nat
  k1 : Nat

/-- `ShardMapBox::get_shard` (src lines 343-347):
`k.hash(self.k0, self.k1) as uint % self.maps.len()`.  The keyed hash
`k.hash` comes from core/hash.rs, which is not under src/, so it is taken
as an arbitrary function `hashFn` of the key and the two seeds.  In Rust a
`%` by zero fails, so the result is `none` when there are no shards. -/
def ShardMapBox.get_shard {K V : Type} (hashFn : K → Nat → Nat → Nat)
    (b : ShardMapBox K V) (k : K) : Option Nat :=
  if b.maps.length = 0 then none
  else some (hashFn k b.k0 b.k1 % b.maps.length)

/-- `ShardMap` (src lines 349-398): a clonable handle to one
`ShardMapBox`. -/
structure ShardMap (K V : Type) where
  ptr : ShardMapBox K V

/-- `ShardMap::with_capacity_and_keys` (src lines 354-365): allocate
`shards` single-lock maps, all with the same seed pair.  The loop pushes
`shards` identical fresh maps, i.e. a replicate.  No shard count is
rejected, including zero. -/
def ShardMap.with_capacity_and_keys (K V : Type) (shards k0 k1 capacity : Nat) :
    ShardMap K V :=
  { ptr := { maps := List.replicate shards (LockedHashMap.with_capacity_and_keys K V k0 k1 capacity),
             k0 := k0, k1 := k1 } }

/-- `ShardMap::swap` (src lines 367-373): compute the shard index, then
delegate to exactly that shard's map.  `none` models the failure on zero
shards (`% 0`) or an out-of-range index (`maps[shard]`). -/
def ShardMap.swap {K V : Type} [DecidableEq K] (hashFn : K → Nat → Nat → Nat)
    (s : ShardMap K V) (k : K) (v : V) : Option (Option V × ShardMap K V) :=
  match ShardMapBox.get_shard hashFn s.ptr k with
  | none => none
  | some shard =>
    match s.ptr.maps[shard]? with
    | none => none
    | some m =>
      let r := m.swap k v
      some (r.1, { ptr := { s.ptr with maps := s.ptr.maps.set shard r.2 } })

/-- `ShardMap::pop` (src lines 375-381). -/
def ShardMap.pop {K V : Type} [DecidableEq K] (hashFn : K → Nat → Nat → Nat)
    (s : ShardMap K V) (k : K) : Option (Option V × ShardMap K V) :=
  match ShardMapBox.get_shard hashFn s.ptr k with
  | none => none
  | some shard =>
    match s.ptr.maps[shard]? with
    | none => none
    | some m =>
      let r := m.pop k
      some (r.1, { ptr := { s.ptr with maps := s.ptr.maps.set shard r.2 } })

/-- `ShardMap::find` (src lines 384-392). -/
def ShardMap.find {K V : Type} (hashFn : K → Nat → Nat → Nat)
    (s : ShardMap K V) (k : K) : Option (Option V) :=
  match ShardMapBox.get_shard hashFn s.ptr k with
  | none => none
  | some shard =>
    match s.ptr.maps[shard]? with
    | none => none
    | some m => some (m.find k)

/-- Pop the priority queue `n` times, collecting the returned values in
order; stops early if the queue empties. -/
def drainPQ {A : Type} [LinearOrder A] : Nat → PriorityQueue A → List A
  | 0, _ => []
  | n + 1, q =>
    match pqPopList q with
    | (none, _) => []
    | (some m, rest) => m :: drainPQ n rest

/-! Helper lemmas for the capacity-zero bounded queue. -/

theorem noBoundedStepFromEmptyDeque (q2 : Deque ℤ) :
    ¬ BoundedStep (dequeGQ ℤ) 0 (Deque.new ℤ) q2 := by
  intro hs
  cases hs with
  | push x hfull => exact hfull rfl
  | pop x hne hpop => simp [dequeGQ, Deque.new] at hne

theorem noBoundedStepFromEmptyPQ (q2 : PriorityQueue ℤ) :
    ¬ BoundedStep (pqGQ ℤ) 0 (PriorityQueue.new ℤ) q2 := by
  intro hs
  cases hs with
  | push x hfull => exact hfull rfl
  | pop x hne hpop => simp [pqGQ, PriorityQueue.new] at hne

theorem boundedReachZeroDeque (q : Deque ℤ)
    (hr : BoundedReach (dequeGQ ℤ) 0 (Deque.new ℤ) q) : q = Deque.new ℤ := by
  induction hr with
  | refl => rfl
  | step q2 q3 hr2 hs ih =>
    rw [ih] at hs
    exact absurd hs (noBoundedStepFromEmptyDeque q3)

theorem boundedReachZeroPQ (q : PriorityQueue ℤ)
    (hr : BoundedReach (pqGQ ℤ) 0 (PriorityQueue.new ℤ) q) : q = PriorityQueue.new ℤ := by
  induction hr with
  | refl => rfl
  | step q2 q3 hr2 hs ih =>
    rw [ih] at hs
    exact absurd hs (noBoundedStepFromEmptyPQ q3)

/-! The claims. -/

/-- Claim C1: the claim states that for every call to the unbounded
engine's `push(item)` the queue mutex is released on every exit path of the
call, including the exit path taken when the insertion into the backing
structure fails partway.  The code violates this: `QueuePtr::push`
(src lines 73-81) manually pairs `mutex.lock()` / `mutex.unlock()`, so on
the exit path where `generic_push` fails the unlock statement never runs
and the call exits with the mutex still held.  First conjunct: evaluating
the embedded push at a failing insertion exits with `locked = true`.
Second conjunct, for contrast: the normal exit path does release the
mutex. -/
theorem C1_push_lock_leak_on_insert_failure :
    ((QueuePtr.push (dequeGQ ℤ) { queue := Deque.new ℤ, locked := false } 0 false).1.locked
      = true)
    ∧ ((QueuePtr.push (dequeGQ ℤ) { queue := Deque.new ℤ, locked := false } 0 true).1.locked
      = false) :=
  ⟨rfl, rfl⟩

/-- Claim C2: for every bounded queue — FIFO deque-backed (`BoundedQueue`)
or heap-backed (`BoundedPriorityQueue`) — constructed with capacity C, the
backing collection's length never exceeds C at any lock-held instant: every
state reachable from the empty initial state by completed push/pop
operations has length ≤ C, and a push (whose wait loop exits only when the
length differs from C) therefore inserts only from a state whose length is
strictly below C. -/
theorem C2_bounded_capacity_invariant :
    (∀ (C : Nat) (q : Deque ℤ),
        BoundedReach (dequeGQ ℤ) C (Deque.new ℤ) q → q.length ≤ C)
    ∧ (∀ (C : Nat) (q : PriorityQueue ℤ),
        BoundedReach (pqGQ ℤ) C (PriorityQueue.new ℤ) q → q.length ≤ C)
    ∧ (∀ (C : Nat) (q : Deque ℤ),
        BoundedReach (dequeGQ ℤ) C (Deque.new ℤ) q → q.length ≠ C → q.length < C)
    ∧ (∀ (C : Nat) (q : PriorityQueue ℤ),
        BoundedReach (pqGQ ℤ) C (PriorityQueue.new ℤ) q → q.length ≠ C → q.length < C) := by
  have hd : ∀ (C : Nat) (q : Deque ℤ),
      BoundedReach (dequeGQ ℤ) C (Deque.new ℤ) q → q.length ≤ C := by
    intro C q hr
    exact boundedReach_len_le (dequeGQ ℤ) C (dequeGQ_len_push ℤ) (dequeGQ_len_pop ℤ) hr
      (Nat.zero_le C)
  have hp : ∀ (C : Nat) (q : PriorityQueue ℤ),
      BoundedReach (pqGQ ℤ) C (PriorityQueue.new ℤ) q → q.length ≤ C := by
    intro C q hr
    exact boundedReach_len_le (pqGQ ℤ) C (pqGQ_len_push ℤ) (pqGQ_len_pop ℤ) hr (Nat.zero_le C)
  exact ⟨hd, hp,
    fun C q hr hne => lt_of_le_of_ne (hd C q hr) hne,
    fun C q hr hne => lt_of_le_of_ne (hp C q hr) hne⟩

/-- Witness for C2 at a concrete input: the state `[5]`, reached from the
empty bounded queue of capacity 2 by one completed push, has length ≤ 2. -/
theorem C2_bounded_capacity_invariant_witness : ([(5 : ℤ)] : Deque ℤ).length ≤ 2 := by
  have hstep : BoundedStep (dequeGQ ℤ) 2 (Deque.new ℤ)
      ((dequeGQ ℤ).generic_push (Deque.new ℤ) 5) :=
    BoundedStep.push (Deque.new ℤ) 5 (by decide)
  have hr : BoundedReach (dequeGQ ℤ) 2 (Deque.new ℤ) [(5 : ℤ)] :=
    BoundedReach.step _ _ _ (BoundedReach.refl (Deque.new ℤ)) hstep
  exact C2_bounded_capacity_invariant.1 2 [(5 : ℤ)] hr

/-- Claim C7: for every pop on an unbounded or bounded queue, the wait loop
(`while is_empty`) establishes under the mutex that the collection is
non-empty before `generic_pop` runs, and on a structure observed non-empty
`generic_pop` returns a value — so the `.get()` after it (src lines 69,
177) never sees an empty optional. -/
theorem C7_pop_unwrap_unreachable :
    (∀ q : Deque ℤ, (dequeGQ ℤ).is_empty q = false →
        ((dequeGQ ℤ).generic_pop q).1.isSome = true)
    ∧ (∀ q : PriorityQueue ℤ, (pqGQ ℤ).is_empty q = false →
        ((pqGQ ℤ).generic_pop q).1.isSome = true) := by
  constructor
  · intro q h
    cases q with
    | nil => simp [dequeGQ] at h
    | cons x xs => simp [dequeGQ, Deque.pop_front]
  · intro q h
    have hne : q ≠ [] := by
      intro h2
      rw [h2] at h
      simp [pqGQ] at h
    simpa [pqGQ, PriorityQueue.pop] using pqPopList_fst_isSome hne

/-- Witness for C7 at the concrete non-empty backing structure `[5]`. -/
theorem C7_pop_unwrap_unreachable_witness :
    (((dequeGQ ℤ).generic_pop [(5 : ℤ)]).1.isSome = true)
    ∧ (((pqGQ ℤ).generic_pop [(5 : ℤ)]).1.isSome = true) :=
  ⟨C7_pop_unwrap_unreachable.1 [(5 : ℤ)] (by decide),
   C7_pop_unwrap_unreachable.2 [(5 : ℤ)] (by decide)⟩

/-- Claim C10: for a bounded queue (either backing structure) constructed
with capacity 0, the push wait-loop condition `len == maximum` holds in the
initial state and in every reachable state, so a push never completes and
no item is ever inserted: every reachable state is still the empty initial
state, its length is 0 (= the capacity), and no completed push or pop step
exists from it. -/
theorem C10_capacity_zero_push_never_completes :
    (∀ q : Deque ℤ, BoundedReach (dequeGQ ℤ) 0 (Deque.new ℤ) q →
        q = Deque.new ℤ ∧ q.length = 0
        ∧ ∀ q2 : Deque ℤ, ¬ BoundedStep (dequeGQ ℤ) 0 q q2)
    ∧ (∀ q : PriorityQueue ℤ, BoundedReach (pqGQ ℤ) 0 (PriorityQueue.new ℤ) q →
        q = PriorityQueue.new ℤ ∧ q.length = 0
        ∧ ∀ q2 : PriorityQueue ℤ, ¬ BoundedStep (pqGQ ℤ) 0 q q2) := by
  constructor
  · intro q hr
    have hq := boundedReachZeroDeque q hr
    subst hq
    exact ⟨rfl, rfl, noBoundedStepFromEmptyDeque⟩
  · intro q hr
    have hq := boundedReachZeroPQ q hr
    subst hq
    exact ⟨rfl, rfl, noBoundedStepFromEmptyPQ⟩

/-- Witness for C10 at a concrete input: from the initial state of a
capacity-0 bounded FIFO queue (reachable by reflexivity) no completed push
can produce the state `[3]`. -/
theorem C10_capacity_zero_push_never_completes_witness :
    ¬ BoundedStep (dequeGQ ℤ) 0 (Deque.new ℤ) [(3 : ℤ)] :=
  (C10_capacity_zero_push_never_completes.1 (Deque.new ℤ)
    (BoundedReach.refl (Deque.new ℤ))).2.2 [(3 : ℤ)]

/-- Claim C4: for every serialized trace of operations on a `Queue` (the
mutex serializes them), the popped values followed by the remaining queue
are exactly the pushed values in push order — so pops return pushed values
in their push order (each pop removing the earliest-inserted item), the
popped values are a prefix of the pushed sequence, and once the queue is
drained the multiset (indeed the sequence) of popped values equals that of
the pushed values. -/
theorem C4_fifo_per_producer :
    ∀ (ops : List (QOp ℤ)) (outs : List ℤ) (fq : Deque ℤ),
      runQueue (Deque.new ℤ) ops = some (outs, fq) →
      outs ++ fq = pushesOf ops
      ∧ (fq = [] → outs = pushesOf ops)
      ∧ Multiset.ofList (pushesOf ops) = Multiset.ofList outs + Multiset.ofList fq := by
  intro ops outs fq h
  have happ : outs ++ fq = pushesOf ops := by
    simpa using runQueue_outputs_append ops (Deque.new ℤ) outs fq h
  refine ⟨happ, ?_, ?_⟩
  · intro hfq
    rw [hfq] at happ
    simpa using happ
  · rw [← happ]
    exact (Multiset.coe_add outs fq).symm

/-- Witness for C4 at the concrete trace push 1, push 2, pop, pop: the two
pops return 1 then 2, the order in which the values were pushed. -/
theorem C4_fifo_per_producer_witness :
    ([1, 2] : List ℤ) = pushesOf [QOp.push (1 : ℤ), QOp.push 2, QOp.pop, QOp.pop] :=
  (C4_fifo_per_producer [QOp.push (1 : ℤ), QOp.push 2, QOp.pop, QOp.pop] [1, 2] []
    (by rfl)).2.1 rfl

/-- Claim C5: for every `BlockingPriorityQueue` over a type with a total
order, a completed pop returns an item ≥ every item present in the queue at
the instant of removal (and removes exactly that item, i.e. the contents
are permuted to the returned maximum plus the rest); in particular pushing
3, 1, 4, 1, 5 and then popping five times yields the non-increasing
sequence 5, 4, 3, 1, 1, a permutation of the pushed values. -/
theorem C5_priority_pop_max :
    (∀ (q : PriorityQueue ℤ) (m : ℤ) (rest : PriorityQueue ℤ),
        PriorityQueue.pop q = (some m, rest) →
        (∀ y ∈ q, y ≤ m) ∧ List.Perm q (m :: rest))
    ∧ drainPQ 5 (List.foldl PriorityQueue.push (PriorityQueue.new ℤ) [3, 1, 4, 1, 5])
        = [5, 4, 3, 1, 1]
    ∧ List.Sorted (fun a b : ℤ => b ≤ a) [5, 4, 3, 1, 1]
    ∧ List.Perm [(5 : ℤ), 4, 3, 1, 1] [3, 1, 4, 1, 5] := by
  refine ⟨?_, by decide, by decide, by decide⟩
  intro q m rest h
  exact ⟨pqPopList_max h, pqPopList_perm h⟩

/-- Witness for C5 at the concrete queue `[2, 1]`: its pop returns 2 with
rest `[1]`, and the contents are a permutation of 2 followed by the rest. -/
theorem C5_priority_pop_max_witness :
    List.Perm ([2, 1] : PriorityQueue ℤ) ((2 : ℤ) :: [1]) :=
  (C5_priority_pop_max.1 [2, 1] 2 [1] (by decide)).2

theorem option_map_clone {V : Type} (o : Option V) : o.map clone = o := by
  cases o <;> rfl

/-- Claim C3: for every `ConcurrentHashMap`, `swap(k, v)` inserts or
replaces the binding of k and returns the value previously stored at k
(empty if absent), `pop(k)` removes the entry if present and returns its
value (absence a normal empty result), and neither touches other keys; in
particular `swap "a" 1; swap "a" 2; pop "a"; find "a"` returns empty, then
1, then 2, then empty. -/
theorem C3_map_swap_pop_find :
    (∀ (K V : Type) [DecidableEq K] (m : ConcurrentHashMap K V) (k k2 : K) (v : V),
        ((m.swap k v).1 = m.find k
          ∧ (m.swap k v).2.find k = some v
          ∧ (k2 ≠ k → (m.swap k v).2.find k2 = m.find k2))
        ∧ ((m.pop k).1 = m.find k
          ∧ (m.pop k).2.find k = none
          ∧ (k2 ≠ k → (m.pop k).2.find k2 = m.find k2)))
    ∧ (let m0 := ConcurrentHashMap.with_capacity_and_keys String ℤ 0 0 16
       let r1 := m0.swap "a" 1
       let r2 := r1.2.swap "a" 2
       let r3 := r2.2.pop "a"
       r1.1 = none ∧ r2.1 = some 1 ∧ r3.1 = some 2 ∧ r3.2.find "a" = none) := by
  constructor
  · intro K V inst m k k2 v
    refine ⟨⟨?_, ?_, ?_⟩, ?_, ?_, ?_⟩
    · simp [ConcurrentHashMap.swap, LockedHashMap.swap, HashMap.swap,
        ConcurrentHashMap.find, LockedHashMap.find, HashMap.find, option_map_clone]
    · simp [ConcurrentHashMap.swap, LockedHashMap.swap, HashMap.swap,
        ConcurrentHashMap.find, LockedHashMap.find, HashMap.find, clone]
    · intro hne
      simp [ConcurrentHashMap.swap, LockedHashMap.swap, HashMap.swap,
        ConcurrentHashMap.find, LockedHashMap.find, HashMap.find, hne]
    · simp [ConcurrentHashMap.pop, LockedHashMap.pop, HashMap.pop,
        ConcurrentHashMap.find, LockedHashMap.find, HashMap.find, option_map_clone]
    · simp [ConcurrentHashMap.pop, LockedHashMap.pop, HashMap.pop,
        ConcurrentHashMap.find, LockedHashMap.find, HashMap.find]
    · intro hne
      simp [ConcurrentHashMap.pop, LockedHashMap.pop, HashMap.pop,
        ConcurrentHashMap.find, LockedHashMap.find, HashMap.find, hne]
  · exact ⟨rfl, rfl, rfl, rfl⟩

/-- Witness for C3 at a concrete input: swapping 1 at key "a" into the
empty map leaves the (absent) binding of the distinct key "b" unchanged. -/
theorem C3_map_swap_pop_find_witness :
    ((ConcurrentHashMap.with_capacity_and_keys String ℤ 0 0 16).swap "a" 1).2.find "b"
      = (ConcurrentHashMap.with_capacity_and_keys String ℤ 0 0 16).find "b" :=
  (C3_map_swap_pop_find.1 String ℤ
    (ConcurrentHashMap.with_capacity_and_keys String ℤ 0 0 16) "a" "b" 1).1.2.2
    (by decide)

/-- Claim C8: `find(key)` returns a copy of the stored value, not a
reference into the map's storage: at store level, `find_copy` hands the
caller a fresh cell, and a subsequent `swap` (which overwrites the key's
own cell) or `pop` (which unbinds the key) leaves the returned cell's
contents unchanged. -/
theorem C8_find_returns_copy :
    ∀ (K V : Type) [DecidableEq K] (m : HeapHashMap K V) (st st2 : Store V) (k : K)
      (a2 : Nat) (w : V),
      HeapHashMap.find_copy m st k = (some a2, st2) →
      ((m.swap_store st2 k w).2.read a2 = st2.read a2
        ∧ (m.pop_store st2 k).2.read a2 = st2.read a2) := by
  intro K V inst m st st2 k a2 w h
  rcases h1 : m.addr k with _ | a
  · simp only [HeapHashMap.find_copy, h1] at h
    simp at h
  · simp only [HeapHashMap.find_copy, h1] at h
    rcases h2 : st.read a with _ | v
    · rw [h2] at h
      simp at h
    · rw [h2] at h
      simp [Store.alloc] at h
      obtain ⟨ha2, hst2⟩ := h
      constructor
      · have hlt : a < st.cells.length := by
          have h2b : st.cells[a]? = some v := h2
          obtain ⟨hlt, _⟩ := List.getElem?_eq_some_iff.mp h2b
          exact hlt
        have hane : a ≠ a2 := by
          rw [← ha2]
          exact Nat.ne_of_lt hlt
        show ((m.swap_store st2 k w).2).read a2 = st2.read a2
        simp only [HeapHashMap.swap_store, h1]
        show (st2.cells.set a w)[a2]? = st2.cells[a2]?
        exact List.getElem?_set_ne hane
      · rfl

/-- Witness for C8 at a concrete input: the map binds "a" to cell 0 of the
store `[7]`; `find_copy` returns fresh cell 1 of the store `[7, 7]`, and
both a subsequent `swap` of 9 at "a" and a subsequent `pop` of "a" leave
cell 1 reading the same value as before. -/
theorem C8_find_returns_copy_witness :
    ((HeapHashMap.swap_store ⟨fun k2 => if k2 = "a" then some 0 else none⟩
        ⟨[(7 : ℤ), 7]⟩ "a" 9).2.read 1 = (⟨[(7 : ℤ), 7]⟩ : Store ℤ).read 1)
    ∧ ((HeapHashMap.pop_store ⟨fun k2 => if k2 = "a" then some 0 else none⟩
        ⟨[(7 : ℤ), 7]⟩ "a").2.read 1 = (⟨[(7 : ℤ), 7]⟩ : Store ℤ).read 1) :=
  C8_find_returns_copy String ℤ ⟨fun k2 => if k2 = "a" then some 0 else none⟩
    ⟨[(7 : ℤ)]⟩ ⟨[(7 : ℤ), 7]⟩ "a" 1 9 rfl

/-- Claim C6: `get_shard` is a pure function of the key, the two seeds and
the shard count — so repeated calls for one key within one instance always
yield the same index, equal to the keyed hash reduced modulo the shard
count — and `swap`, `pop` and `find` each compute that index and delegate
to exactly that shard's single-lock map, leaving every other shard
untouched and returning exactly what the shard's map operation returns. -/
theorem C6_shard_routing_and_delegation :
    (∀ (K V : Type) (hashFn : K → Nat → Nat → Nat) (b b2 : ShardMapBox K V) (k : K),
        b.k0 = b2.k0 → b.k1 = b2.k1 → b.maps.length = b2.maps.length →
        ShardMapBox.get_shard hashFn b k = ShardMapBox.get_shard hashFn b2 k)
    ∧ (∀ (K V : Type) (hashFn : K → Nat → Nat → Nat) (b : ShardMapBox K V) (k : K),
        b.maps.length ≠ 0 →
        ShardMapBox.get_shard hashFn b k = some (hashFn k b.k0 b.k1 % b.maps.length))
    ∧ (∀ (K V : Type) [DecidableEq K] (hashFn : K → Nat → Nat → Nat) (s : ShardMap K V)
          (k : K) (v : V) (i : Nat) (m : LockedHashMap K V),
        ShardMapBox.get_shard hashFn s.ptr k = some i →
        s.ptr.maps[i]? = some m →
        ShardMap.swap hashFn s k v
            = some ((m.swap k v).1,
                { ptr := { s.ptr with maps := s.ptr.maps.set i (m.swap k v).2 } })
          ∧ ShardMap.pop hashFn s k
            = some ((m.pop k).1,
                { ptr := { s.ptr with maps := s.ptr.maps.set i (m.pop k).2 } })
          ∧ ShardMap.find hashFn s k = some (m.find k)
          ∧ (∀ j, j ≠ i →
              (s.ptr.maps.set i (m.swap k v).2)[j]? = s.ptr.maps[j]?
              ∧ (s.ptr.maps.set i (m.pop k).2)[j]? = s.ptr.maps[j]?)) := by
  refine ⟨?_, ?_, ?_⟩
  · intro K V hashFn b b2 k h0 h1 h2
    rw [ShardMapBox.get_shard, ShardMapBox.get_shard, h0, h1, h2]
  · intro K V hashFn b k hne
    rw [ShardMapBox.get_shard, if_neg hne]
  · intro K V inst hashFn s k v i m hshard hget
    refine ⟨?_, ?_, ?_, ?_⟩
    · rw [ShardMap.swap, hshard]
      simp [hget]
    · rw [ShardMap.pop, hshard]
      simp [hget]
    · rw [ShardMap.find, hshard]
      simp [hget]
    · intro j hj
      exact ⟨List.getElem?_set_ne (Ne.symm hj), List.getElem?_set_ne (Ne.symm hj)⟩

/-- Witness for C6 at a concrete input: on a one-shard map, `find "a"`
returns exactly what shard 0's single-lock map returns for "a". -/
theorem C6_shard_routing_and_delegation_witness :
    ShardMap.find (fun _ _ _ => 0) (ShardMap.with_capacity_and_keys String ℤ 1 0 0 16) "a"
      = some ((LockedHashMap.with_capacity_and_keys String ℤ 0 0 16).find "a") :=
  (C6_shard_routing_and_delegation.2.2 String ℤ (fun _ _ _ => 0)
    (ShardMap.with_capacity_and_keys String ℤ 1 0 0 16) "a" (0 : ℤ) 0
    (LockedHashMap.with_capacity_and_keys String ℤ 0 0 16) rfl rfl).2.2.1

/-- Claim C9: for every `ShardMap` with shard count N ≥ 1, `get_shard`
returns the keyed hash reduced modulo N, an index strictly below N, so the
shard-array indexing by `swap`, `pop` and `find` is in bounds; and N = 0 is
the only shard count for which the shard computation (a `%` by zero) is
undefined, yet the constructor accepts it. -/
theorem C9_get_shard_in_bounds :
    (∀ (K V : Type) (hashFn : K → Nat → Nat → Nat) (b : ShardMapBox K V) (k : K),
        1 ≤ b.maps.length →
        ShardMapBox.get_shard hashFn b k = some (hashFn k b.k0 b.k1 % b.maps.length)
          ∧ hashFn k b.k0 b.k1 % b.maps.length < b.maps.length)
    ∧ (∀ (K V : Type) (hashFn : K → Nat → Nat → Nat) (b : ShardMapBox K V) (k : K),
        1 ≤ b.maps.length →
        (b.maps[hashFn k b.k0 b.k1 % b.maps.length]?).isSome = true)
    ∧ (∀ (K V : Type) (hashFn : K → Nat → Nat → Nat) (k0 k1 c : Nat) (k : K),
        (ShardMap.with_capacity_and_keys K V 0 k0 k1 c).ptr.maps.length = 0
          ∧ ShardMapBox.get_shard hashFn
              (ShardMap.with_capacity_and_keys K V 0 k0 k1 c).ptr k = none) := by
  have hmod : ∀ (K V : Type) (hashFn : K → Nat → Nat → Nat) (b : ShardMapBox K V) (k : K),
      1 ≤ b.maps.length → hashFn k b.k0 b.k1 % b.maps.length < b.maps.length :=
    fun K V hashFn b k h1 => Nat.mod_lt _ (Nat.lt_of_lt_of_le Nat.zero_lt_one h1)
  refine ⟨?_, ?_, ?_⟩
  · intro K V hashFn b k h1
    refine ⟨?_, hmod K V hashFn b k h1⟩
    rw [ShardMapBox.get_shard, if_neg (Nat.one_le_iff_ne_zero.mp h1)]
  · intro K V hashFn b k h1
    rw [List.getElem?_eq_getElem (hmod K V hashFn b k h1)]
    rfl
  · intro K V hashFn k0 k1 c k
    constructor
    · simp [ShardMap.with_capacity_and_keys]
    · rw [ShardMapBox.get_shard, if_pos]
      simp [ShardMap.with_capacity_and_keys]

/-- Witness for C9 at a concrete input: a two-shard map with a constant
hash of 7 routes "a" to shard 7 % 2, an index strictly below 2. -/
theorem C9_get_shard_in_bounds_witness :
    ShardMapBox.get_shard (fun _ _ _ => 7)
        (ShardMap.with_capacity_and_keys String ℤ 2 0 0 16).ptr "a" = some (7 % 2)
      ∧ 7 % 2 < 2 :=
  (C9_get_shard_in_bounds.1 String ℤ (fun _ _ _ => 7)
    (ShardMap.with_capacity_and_keys String ℤ 2 0 0 16).ptr "a" (by decide))

end RustCore
